import Mathlib

/-!
Shallow embedding of the DC generator simulator in `src/main.py`.

The script's model core is embedded over the real numbers: the slider
parameters become a `Params` record, the Streamlit session state becomes a
`SimState` record, and the stepping logic (`single_step`, the Play loop) is
explicit state passing.  Rendering (`render_frame`, `st.pyplot`) and the
per-frame sleep never touch the model state and are omitted.
-/

namespace DCGen

noncomputable section

/-- Fixed time step in seconds, `dt = 0.05` (src/main.py line 179). -/
def dt : ℝ := 0.05

/-- Slider/selectbox parameters of one script run (src/main.py lines 19-25):
angular speed, rotation direction (true = CCW), coil width and height,
and the peak field strength `B0`. -/
structure Params where
  speed : ℝ
  ccw : Bool
  coil_width : ℝ
  coil_height : ℝ
  B0 : ℝ

/-- Coil area `area = coil_width * coil_height` (line 26). -/
def area (p : Params) : ℝ := p.coil_width * p.coil_height

/-- Signed angular velocity: `omega = speed if CCW else -speed` (line 180). -/
def omega (p : Params) : ℝ := if p.ccw then p.speed else -p.speed

/-- Default slider values of the script: speed 2.0, CCW, width 0.1,
height 0.08, B0 0.8. -/
def defaultParams : Params :=
  { speed := 2.0, ccw := true, coil_width := 0.1, coil_height := 0.08, B0 := 0.8 }

/-- Streamlit session state: the accumulated angle (radians), elapsed time,
and the three append-only history series (lines 36-41 and 170-177). -/
structure SimState where
  angle : ℝ
  time : ℝ
  t_series : List ℝ
  phi_series : List ℝ
  emf_series : List ℝ

/-- Degree-to-radian conversion, `np.deg2rad` (line 37). -/
def deg2rad (d : ℝ) : ℝ := d * (Real.pi / 180)

/-- Fresh session state: angle taken from the angle slider (degrees),
zero elapsed time, empty series (lines 36-37 and 170-177). -/
def initState (sliderDeg : ℝ) : SimState :=
  { angle := deg2rad sliderDeg, time := 0, t_series := [], phi_series := [], emf_series := [] }

/-- One dipole-like term of the field grid (lines 50-58): for a source at
`(px, py)` with strength `m`, the field at `(x, y)` is
`m * (r / (|r|^2 + 1e-6)^1.5)` componentwise, with `r = (x - px, y - py)`. -/
def dipole (px py m x y : ℝ) : ℝ × ℝ :=
  let rx := x - px
  let ry := y - py
  let r2 := rx ^ 2 + ry ^ 2 + 1e-6
  (m * rx / r2 ^ (1.5 : ℝ), m * ry / r2 ^ (1.5 : ℝ))

/-- Unscaled field at a point: the dipole at `(-0.3, 0)` with `m = 1` plus the
dipole at `(0.3, 0)` with `m = -1` plus the zero uniform background
(lines 60-66). -/
def rawFieldAt (x y : ℝ) : ℝ × ℝ :=
  let b1 := dipole (-0.3) 0 1 x y
  let b2 := dipole 0.3 0 (-1) x y
  (b1.1 + b2.1 + 0, b1.2 + b2.2 + 0)

/-- The `magnetic_field_grid` function (lines 44-75) on a list of sample
points: the raw dipole-sum field at each point, rescaled by
`B0 / mean magnitude` when that mean is positive. -/
def magnetic_field_grid (B0 : ℝ) (pts : List (ℝ × ℝ)) : List (ℝ × ℝ) :=
  let raw := pts.map fun q => rawFieldAt q.1 q.2
  let magMean := (raw.map fun b => Real.sqrt (b.1 ^ 2 + b.2 ^ 2)).sum / pts.length
  if 0 < magMean then raw.map fun b => (b.1 * (B0 / magMean), b.2 * (B0 / magMean))
  else raw

/-- Effective field magnitude used by `single_step` (lines 186-188): the grid
is evaluated at the single point `(0, 0)` and the magnitude of that one
vector is taken. -/
def B_eff (B0 : ℝ) : ℝ :=
  let Bc := (magnetic_field_grid B0 [(0, 0)]).headI
  Real.sqrt (Bc.1 ^ 2 + Bc.2 ^ 2)

/-- The `flux_through_coil` function (lines 85-91):
`Phi = B_field_mag * area * cos theta`. -/
def flux_through_coil (p : Params) (B_field_mag theta : ℝ) : ℝ :=
  B_field_mag * area p * Real.cos theta

/-- The `induced_emf` function (lines 93-98): `-(phi[-1] - phi[-2]) / dt`
from the last two flux samples, and `0.0` when fewer than two exist. -/
def induced_emf (phi : List ℝ) (d : ℝ) : ℝ :=
  match phi.reverse with
  | pk :: pk1 :: _ => -(pk - pk1) / d
  | _ => 0

/-- The `single_step` function (lines 182-196): advance angle by `omega * dt`
and time by `dt`, compute the effective field at the coil center, append the
new flux sample, the new time sample, and the rectified (absolute-value) EMF
sample. -/
def single_step (p : Params) (s : SimState) : SimState :=
  let angle' := s.angle + omega p * dt
  let time' := s.time + dt
  let phi_new := flux_through_coil p (B_eff p.B0) angle'
  let phi' := s.phi_series ++ [phi_new]
  let emf_new := induced_emf phi' dt
  let emf_rectified := |emf_new|
  { angle := angle'
    time := time'
    t_series := s.t_series ++ [time']
    phi_series := phi'
    emf_series := s.emf_series ++ [emf_rectified] }

/-- `n` consecutive invocations of `single_step`. -/
def stepN (p : Params) : ℕ → SimState → SimState
  | 0, s => s
  | n + 1, s => single_step p (stepN p n s)

/-- The Play button handler (lines 202-233): `for i in range(200)` performs
200 consecutive single steps; the per-frame rendering and the sleep do not
modify the simulation state. -/
def play (p : Params) (s : SimState) : SimState := stepN p 200 s

/-- A value returned by the Streamlit angle slider: always a number,
never `None`. -/
def sliderReturn (v : ℝ) : Option ℝ := some v

/-- Session angle after a script rerun (lines 36-41): on the first run the
angle is set from the slider; on later runs the guard
`if angle_slider is not None` is tested against the slider's return value and
the stored angle is overwritten when it holds. -/
def sessionAngleAfterRerun (stored : Option ℝ) (sliderDeg : ℝ) : ℝ :=
  match stored with
  | none => deg2rad sliderDeg
  | some a =>
    match sliderReturn sliderDeg with
    | some v => deg2rad v
    | none => a

/-- A session state whose elapsed time (50 s) already exceeds the 10 s
that 200 steps of `dt = 0.05` amount to. -/
def pastMaxState : SimState :=
  { angle := 0, time := 50, t_series := [], phi_series := [], emf_series := [] }

/-- Modelled from the spec: the section 4.1 contract
`flux(theta) = N * B0 * A * cos(theta)` with a configured turn count `N`;
no turn-count parameter exists in src/main.py, so the contract is stated
here from the spec's words for comparison with `flux_through_coil`. -/
def flux_spec (N B0 A theta : ℝ) : ℝ := N * B0 * A * Real.cos theta

end

/-- The raw dipole-sum field at the coil center `(0, 0)` points along the
x-axis with magnitude `0.6 / 0.090001 ^ 1.5`. -/
lemma rawFieldAt_center :
    rawFieldAt 0 0 = (0.6 / (0.090001 : ℝ) ^ (1.5 : ℝ), 0) := by
  simp only [rawFieldAt, dipole]
  norm_num
  ring

/-- Rescaling the single-point grid at the center by `B0 / mean` yields an
effective field magnitude of exactly `B0` whenever `B0` is nonnegative. -/
lemma B_eff_eq (B0 : ℝ) (h : 0 ≤ B0) : B_eff B0 = B0 := by
  have hc : (0 : ℝ) < 0.6 / (0.090001 : ℝ) ^ (1.5 : ℝ) := by
    have hK : (0 : ℝ) < (0.090001 : ℝ) ^ (1.5 : ℝ) :=
      Real.rpow_pos_of_pos (by norm_num) _
    positivity
  set c : ℝ := 0.6 / (0.090001 : ℝ) ^ (1.5 : ℝ) with hcdef
  have hsq : Real.sqrt (c ^ 2 + 0 ^ 2) = c := by
    rw [zero_pow (by norm_num), add_zero, Real.sqrt_sq hc.le]
  have hgrid : magnetic_field_grid B0 [(0, 0)] = [(c * (B0 / c), 0 * (B0 / c))] := by
    simp only [magnetic_field_grid, List.map_cons, List.map_nil, rawFieldAt_center,
      List.sum_cons, List.sum_nil, add_zero, List.length_cons, List.length_nil,
      Nat.cast_one, hsq]
    rw [zero_add, Nat.cast_one, div_one, if_pos hc, ← hcdef]
  simp only [B_eff, hgrid, List.headI]
  rw [mul_div_cancel₀ B0 hc.ne', zero_mul, zero_pow (by norm_num), add_zero,
    Real.sqrt_sq h]

/-- One step advances the stored angle by exactly `omega * dt`. -/
lemma single_step_angle (p : Params) (s : SimState) :
    (single_step p s).angle = s.angle + omega p * dt := rfl

/-- One step advances the elapsed time by exactly `dt`. -/
lemma single_step_time (p : Params) (s : SimState) :
    (single_step p s).time = s.time + dt := rfl

/-- One step appends the sample `s.time + dt` to the time series. -/
lemma single_step_t_series (p : Params) (s : SimState) :
    (single_step p s).t_series = s.t_series ++ [s.time + dt] := rfl

/-- One step appends `flux_through_coil` at the advanced angle to the flux
series. -/
lemma single_step_phi_series (p : Params) (s : SimState) :
    (single_step p s).phi_series
      = s.phi_series ++ [flux_through_coil p (B_eff p.B0) (s.angle + omega p * dt)] := rfl

/-- After `n` steps the stored angle is the start angle plus
`n * (omega * dt)`. -/
lemma stepN_angle (p : Params) (n : ℕ) (s : SimState) :
    (stepN p n s).angle = s.angle + n * (omega p * dt) := by
  induction n with
  | zero => simp [stepN]
  | succ n ih =>
    rw [stepN, single_step_angle, ih]
    push_cast
    ring

/-- After `n` steps the elapsed time is the start time plus `n * dt`. -/
lemma stepN_time (p : Params) (n : ℕ) (s : SimState) :
    (stepN p n s).time = s.time + n * dt := by
  induction n with
  | zero => simp [stepN]
  | succ n ih =>
    rw [stepN, single_step_time, ih]
    push_cast
    ring

/-- One step appends exactly one element to each of the three series. -/
lemma single_step_lengths (p : Params) (s : SimState) :
    (single_step p s).t_series.length = s.t_series.length + 1 ∧
    (single_step p s).phi_series.length = s.phi_series.length + 1 ∧
    (single_step p s).emf_series.length = s.emf_series.length + 1 := by
  refine ⟨?_, ?_, ?_⟩ <;> simp [single_step]

/-- After `n` steps each series has grown by exactly `n` elements. -/
lemma stepN_lengths (p : Params) (n : ℕ) (s : SimState) :
    (stepN p n s).t_series.length = s.t_series.length + n ∧
    (stepN p n s).phi_series.length = s.phi_series.length + n ∧
    (stepN p n s).emf_series.length = s.emf_series.length + n := by
  induction n with
  | zero => simp [stepN]
  | succ n ih =>
    refine ⟨?_, ?_, ?_⟩ <;>
      simp [stepN, single_step, ih.1, ih.2.1, ih.2.2] <;> omega

/-- From a fresh state the time series after `n` steps lists the values
`(k + 1) * dt` for `k < n` in order. -/
lemma stepN_t_series (p : Params) (a : ℝ) (n : ℕ) :
    (stepN p n (initState a)).t_series
      = (List.range n).map fun k : ℕ => ((k : ℝ) + 1) * dt := by
  induction n with
  | zero => simp [stepN, initState]
  | succ n ih =>
    rw [stepN, single_step_t_series, ih, stepN_time p n (initState a), List.range_succ,
      List.map_append]
    simp [initState]
    ring

/-- Nonnegativity of every rectified EMF sample is preserved by stepping. -/
lemma stepN_emf_nonneg (p : Params) (n : ℕ) (s : SimState)
    (hs : ∀ y ∈ s.emf_series, 0 ≤ y) :
    ∀ x ∈ (stepN p n s).emf_series, 0 ≤ x := by
  induction n with
  | zero => simpa [stepN] using hs
  | succ n ih =>
    intro x hx
    rw [stepN] at hx
    simp only [single_step, List.mem_append, List.mem_singleton] at hx
    rcases hx with hx | hx
    · exact ih x hx
    · rw [hx]
      exact abs_nonneg _

/-- C1 (counterexample): the spec contract `flux = N * B0 * A * cos theta`
fails against `flux_through_coil` for the turn count `N = 10` at `theta = 0`
under the default parameters: the code computes `B0 * A * cos theta` with no
turn-count factor at all. -/
theorem C1_counterexample :
    flux_through_coil defaultParams (B_eff defaultParams.B0) 0 ≠
      flux_spec 10 defaultParams.B0 (area defaultParams) 0 := by
  rw [B_eff_eq defaultParams.B0 (by norm_num [defaultParams])]
  simp only [flux_through_coil, flux_spec, area, defaultParams, Real.cos_zero]
  norm_num

/-- C1 (amended): for every real angle `theta`, the flux evaluator returns
`B_field_mag * A * cos theta` for its field-magnitude argument, and — the
peak field being nonnegative — the value actually used per step is
`B0 * A * cos theta`: there is no turn-count multiplier (effectively
`N = 1`), and the perpendicular field component used is `B0 * cos theta`. -/
theorem C1_flux_formula (p : Params) (B theta : ℝ) (hB : 0 ≤ p.B0) :
    flux_through_coil p B theta = B * area p * Real.cos theta ∧
    flux_through_coil p (B_eff p.B0) theta = p.B0 * area p * Real.cos theta := by
  refine ⟨rfl, ?_⟩
  rw [flux_through_coil, B_eff_eq p.B0 hB]

/-- Witness for C1: the amended flux formula instantiated at the default
parameters and `theta = 0`. -/
theorem C1_flux_formula_witness :
    0 ≤ defaultParams.B0 ∧
      (flux_through_coil defaultParams 1 0 = 1 * area defaultParams * Real.cos 0 ∧
       flux_through_coil defaultParams (B_eff defaultParams.B0) 0 =
         defaultParams.B0 * area defaultParams * Real.cos 0) :=
  ⟨by norm_num [defaultParams],
   C1_flux_formula defaultParams 1 0 (by norm_num [defaultParams])⟩

/-- C2: with at least two flux samples the EMF estimate is
`-(phi[k] - phi[k-1]) / dt` from the two most recent samples, and with fewer
than two samples (empty or singleton history) it is exactly `0`. -/
theorem C2_induced_emf_spec (d x a b : ℝ) (l : List ℝ) :
    induced_emf (l ++ [a, b]) d = -(b - a) / d ∧
    induced_emf ([] : List ℝ) d = 0 ∧
    induced_emf [x] d = 0 := by
  refine ⟨?_, rfl, rfl⟩
  simp [induced_emf]

/-- C3 (counterexample): from a state whose elapsed time is already 50 s —
far beyond the 10 s that the claim takes as the configured maximum — Play
still performs all 200 steps, growing the time series by 200 samples and the
elapsed time to 60 s; there is no running flag and no duration check. -/
theorem C3_counterexample :
    (play defaultParams pastMaxState).time = 60 ∧
    (play defaultParams pastMaxState).t_series.length = 200 := by
  constructor
  · rw [play, stepN_time]
    norm_num [pastMaxState, dt]
  · rw [play, (stepN_lengths defaultParams 200 pastMaxState).1]
    simp [pastMaxState]

/-- C3 (amended): Play performs exactly 200 consecutive steps per invocation,
unconditionally: whatever the starting state, elapsed time grows by
`200 * dt` and the time series by 200 samples; no elapsed-time bound is ever
consulted and the state holds no running flag. -/
theorem C3_play_runs_200 (p : Params) (s : SimState) :
    (play p s).time = s.time + 200 * dt ∧
    (play p s).t_series.length = s.t_series.length + 200 := by
  constructor
  · rw [play, stepN_time]
    norm_num
  · exact (stepN_lengths p 200 s).1

/-- C4: the field grid is evaluated at the single point `(0, 0)`, so the
mean magnitude equals that point's magnitude and the rescale by `B0 / mean`
makes the effective field exactly `B0`; hence every appended flux sample is
`B0 * area * cos angle`, independent of the dipole geometry. -/
theorem C4_single_point_rescale (p : Params) (s : SimState) (h : 0 ≤ p.B0) :
    B_eff p.B0 = p.B0 ∧
    (single_step p s).phi_series.getLast? =
      some (p.B0 * area p * Real.cos (s.angle + omega p * dt)) := by
  refine ⟨B_eff_eq p.B0 h, ?_⟩
  rw [single_step_phi_series, List.getLast?_concat, flux_through_coil,
    B_eff_eq p.B0 h]

/-- Witness for C4: the effective-field identity instantiated at the default
parameters from a fresh state. -/
theorem C4_single_point_rescale_witness :
    0 ≤ defaultParams.B0 ∧
      (B_eff defaultParams.B0 = defaultParams.B0 ∧
       (single_step defaultParams (initState 0)).phi_series.getLast? =
         some (defaultParams.B0 * area defaultParams *
           Real.cos ((initState 0).angle + omega defaultParams * dt))) :=
  ⟨by norm_num [defaultParams],
   C4_single_point_rescale defaultParams (initState 0) (by norm_num [defaultParams])⟩

/-- C5: every rectified EMF sample held in the history after any number of
steps from a fresh state is nonnegative, being the absolute value of the raw
finite-difference estimate. -/
theorem C5_emf_nonneg (p : Params) (a : ℝ) (n : ℕ) (x : ℝ)
    (hx : x ∈ (stepN p n (initState a)).emf_series) : 0 ≤ x :=
  stepN_emf_nonneg p n (initState a) (by simp [initState]) x hx

/-- Witness for C5: after one step from a fresh state the (single) rectified
EMF sample is `0`, and the theorem yields its nonnegativity. -/
theorem C5_emf_nonneg_witness :
    (0 : ℝ) ∈ (stepN defaultParams 1 (initState 0)).emf_series ∧ (0 : ℝ) ≤ 0 := by
  have hm : (0 : ℝ) ∈ (stepN defaultParams 1 (initState 0)).emf_series := by
    simp [stepN, single_step, initState, induced_emf]
  exact ⟨hm, C5_emf_nonneg defaultParams 0 1 0 hm⟩

/-- C6: each step advances the stored angle by exactly `omega * dt`, and
from a fresh state the angle after `n` steps is the start angle plus
`n * (omega * dt)`: no bound or wraparound is applied and the stored value
accumulates without limit. -/
theorem C6_angle_accumulates (p : Params) (s : SimState) (a : ℝ) (n : ℕ) :
    (single_step p s).angle = s.angle + omega p * dt ∧
    (stepN p n (initState a)).angle = deg2rad a + n * (omega p * dt) := by
  refine ⟨rfl, ?_⟩
  rw [stepN_angle]
  simp [initState]

/-- C7 (counterexample): after one step from a fresh state the 0th time
sample is `dt = 0.05`, not `0 * dt = 0` as the claim's indexing
`timeSamples[i] = i * dt` would demand. -/
theorem C7_counterexample :
    (stepN defaultParams 1 (initState 0)).t_series.getD 0 0 = dt ∧
    dt ≠ ((0 : ℕ) : ℝ) * dt := by
  constructor
  · simp [stepN, single_step, initState]
  · norm_num [dt]

/-- C7 (amended): after `n` steps from a fresh state the elapsed time is
exactly `n * dt`, the time series has length `n`, and its `i`-th (0-based)
sample is `(i + 1) * dt` — time advances by exactly `dt` per step, the first
sample being `dt` rather than `0`. -/
theorem C7_time_samples (p : Params) (a : ℝ) (n i : ℕ) (hi : i < n) :
    (stepN p n (initState a)).time = n * dt ∧
    (stepN p n (initState a)).t_series.length = n ∧
    (stepN p n (initState a)).t_series.getD i 0 = ((i : ℝ) + 1) * dt := by
  refine ⟨?_, ?_, ?_⟩
  · rw [stepN_time]
    simp [initState]
  · simpa [initState] using (stepN_lengths p n (initState a)).1
  · rw [stepN_t_series, List.getD_eq_getElem?_getD, List.getElem?_map,
      List.getElem?_range hi]
    simp

/-- Witness for C7: the amended timing property instantiated after one step
from a fresh state, at sample index 0. -/
theorem C7_time_samples_witness :
    0 < 1 ∧
      ((stepN defaultParams 1 (initState 0)).time = ((1 : ℕ) : ℝ) * dt ∧
       (stepN defaultParams 1 (initState 0)).t_series.length = 1 ∧
       (stepN defaultParams 1 (initState 0)).t_series.getD 0 0 =
         (((0 : ℕ) : ℝ) + 1) * dt) :=
  ⟨Nat.one_pos, C7_time_samples defaultParams 0 1 0 Nat.one_pos⟩

/-- C8: the three history series start empty, every step appends exactly one
element to each, and after `n` steps from a fresh state all three have
length `n` — so they always have equal length. -/
theorem C8_parallel_series (p : Params) (s : SimState) (a : ℝ) (n : ℕ) :
    ((single_step p s).t_series.length = s.t_series.length + 1 ∧
     (single_step p s).phi_series.length = s.phi_series.length + 1 ∧
     (single_step p s).emf_series.length = s.emf_series.length + 1) ∧
    ((stepN p n (initState a)).t_series.length = n ∧
     (stepN p n (initState a)).phi_series.length = n ∧
     (stepN p n (initState a)).emf_series.length = n) := by
  refine ⟨single_step_lengths p s, ?_, ?_, ?_⟩
  · simpa [initState] using (stepN_lengths p n (initState a)).1
  · simpa [initState] using (stepN_lengths p n (initState a)).2.1
  · simpa [initState] using (stepN_lengths p n (initState a)).2.2

/-- C9: on every script rerun the session angle is overwritten with the
slider's value converted to radians — both on the first run and, because the
slider's return value always passes the not-None guard, on every later run,
whatever angle had accumulated. -/
theorem C9_slider_overwrites (prev sliderDeg : ℝ) :
    sessionAngleAfterRerun (some prev) sliderDeg = deg2rad sliderDeg ∧
    sessionAngleAfterRerun none sliderDeg = deg2rad sliderDeg :=
  ⟨rfl, rfl⟩

/-- C10: the flux evaluator is pure and deterministic — evaluating it twice
at the same arguments yields identical results, and the flux sample a step
produces depends only on the stored angle (and the fixed parameters), not on
any other hidden state. -/
theorem C10_flux_pure (p : Params) (B theta : ℝ) (s1 s2 : SimState)
    (h : s1.angle = s2.angle) :
    flux_through_coil p B theta = flux_through_coil p B theta ∧
    (single_step p s1).phi_series.getLast? = (single_step p s2).phi_series.getLast? := by
  refine ⟨rfl, ?_⟩
  rw [single_step_phi_series, single_step_phi_series, List.getLast?_concat,
    List.getLast?_concat, h]

/-- Witness for C10: purity instantiated at the default parameters with two
identical fresh states. -/
theorem C10_flux_pure_witness :
    (initState 0).angle = (initState 0).angle ∧
      (flux_through_coil defaultParams 1 0 = flux_through_coil defaultParams 1 0 ∧
       (single_step defaultParams (initState 0)).phi_series.getLast? =
         (single_step defaultParams (initState 0)).phi_series.getLast?) :=
  ⟨rfl, C10_flux_pure defaultParams 1 0 (initState 0) (initState 0) rfl⟩

end DCGen
